import Mathlib

/-!
Verification development for the Fractal Workspace repository.

The repository's executable code is the React frontend: the zustand store
in `store.ts`, the node component `CustomNode.tsx`, and the modal
components (`MergeModal.tsx`, which also holds `BranchModal` with
`calculatePosition`).  The backend orchestration engine exists in the
repository only as design documents (the agent coding prompt and
`BACKEND_DESCRIPTION.md`); where a claim is decided by that missing
backend code, the corresponding definitions below are modelled from the
spec and are marked as such in their doc comments.

Conventions of the embedding:
  - TypeScript `string | null` becomes `Option String`.
  - JS numbers used for canvas coordinates become `ℚ` (all the arithmetic
    the claims touch is exact: sums and integer multiples).
  - The CSS stroke width `1.5` is kept in tenths (`15 : Nat`) to stay in
    exact arithmetic; only its presence matters to the claims.
  - `Record<string, T>` becomes a function `String → T`.
  - The unbounded `while` loop in `setSelectedNode` is embedded with fuel
    `nodes.length + 1` and an `Option` result: `none` means the real loop
    would run forever (a terminating run revisits no node id, hence needs
    at most `nodes.length + 1` iterations, which is proved below).
-/

namespace Fractal

/-- Lifecycle status of a node (`node.types.ts`). -/
inductive NodeStatus where
  | active
  | frozen
  | deleted
  deriving DecidableEq, Repr

/-- Kind of a node (`node.types.ts`, `NodeType`). -/
inductive NodeKind where
  | root
  | standard
  | exploration
  deriving DecidableEq, Repr

/-- Role of a chat message (`node.types.ts`, `Message.role`). -/
inductive MsgRole where
  | user
  | assistant
  | system
  | summary
  deriving DecidableEq, Repr

/-- Canvas position, exact coordinates. -/
structure Pos where
  x : ℚ
  y : ℚ
  deriving DecidableEq, Repr

/-- Payload of a canvas node (`node.types.ts`, `NodeData`). -/
structure NodeData where
  title : String
  nodeKind : NodeKind
  status : NodeStatus
  parentId : Option String
  mergeParentId : Option String
  messageCount : Nat
  tokenCount : Nat
  inheritedContext : String
  lastActivity : String
  deriving DecidableEq, Repr

/-- A reactflow canvas node; `rfKind` is the reactflow `type` field,
always the literal `"custom"` in this code base. -/
structure RFNode where
  id : String
  rfKind : String
  position : Pos
  data : NodeData
  deriving DecidableEq, Repr

/-- Style carried by a canvas edge: stroke width in tenths plus the
optional dash pattern (`'5,5'` marks merge edges). -/
structure EdgeStyle where
  strokeWidthTenths : Nat
  strokeDasharray : Option String
  deriving DecidableEq, Repr

/-- A reactflow canvas edge; `edgeKind` is the reactflow `type` field
(the literal `"context"` everywhere in this code base). -/
structure RFEdge where
  id : String
  source : String
  target : String
  edgeKind : String
  animated : Bool
  style : EdgeStyle
  deriving DecidableEq, Repr

/-- A chat message (`node.types.ts`, `Message`); the free-form `metadata`
record is kept as an association list of string pairs. -/
structure Message where
  id : String
  role : MsgRole
  content : String
  timestamp : String
  metadata : List (String × String)
  deriving DecidableEq, Repr

/-- Severity of a toast notification. -/
inductive ToastKind where
  | success
  | error
  | info
  deriving DecidableEq, Repr

/-- A toast notification in the store. -/
structure Toast where
  id : String
  kind : ToastKind
  message : String
  deriving DecidableEq, Repr

/-- A project row (`client.ts`, `Project`). -/
structure Project where
  projectId : String
  name : String
  description : Option String
  createdAt : String
  updatedAt : Option String
  nodeCount : Nat
  deriving DecidableEq, Repr

/-- The zustand store state (`store.ts`, `AppState`), data fields only. -/
structure AppState where
  nodes : List RFNode
  edges : List RFEdge
  isInitialized : Bool
  projects : List Project
  currentProjectId : Option String
  createProjectModalOpen : Bool
  selectedNodeId : Option String
  expandedNodeId : Option String
  creatingBranchNodeId : Option String
  mergingNodeId : Option String
  highlightedPath : List String
  messages : String → List Message
  loading : String → Bool
  toasts : List Toast

/-- The plain (non-dashed) context edge built for a parent link; the id
is `e-` ++ parent ++ `-` ++ child as in `buildEdgesFromNodes`. -/
def mkTreeEdge (parent child : String) : RFEdge :=
  { id := "e-" ++ parent ++ "-" ++ child
    source := parent
    target := child
    edgeKind := "context"
    animated := false
    style := { strokeWidthTenths := 15, strokeDasharray := none } }

/-- The dashed context edge built for a merge link; the id is
`e-merge-` ++ parent ++ `-` ++ child as in `buildEdgesFromNodes`. -/
def mkMergeEdge (parent child : String) : RFEdge :=
  { id := "e-merge-" ++ parent ++ "-" ++ child
    source := parent
    target := child
    edgeKind := "context"
    animated := false
    style := { strokeWidthTenths := 15, strokeDasharray := some "5,5" } }

/-- Edges contributed by one node in `buildEdgesFromNodes`: the primary
parent edge (if `parentId` is set) then the merge edge (if
`mergeParentId` is set). -/
def edgesOfNode (n : RFNode) : List RFEdge :=
  (match n.data.parentId with
    | some p => [mkTreeEdge p n.id]
    | none => []) ++
  (match n.data.mergeParentId with
    | some q => [mkMergeEdge q n.id]
    | none => [])

/-- The store helper `buildEdgesFromNodes` (`store.ts`): one pass over
the nodes, pushing a primary parent edge and a merge edge per node. -/
def buildEdgesFromNodes (nodes : List RFNode) : List RFEdge :=
  nodes.flatMap edgesOfNode

/-- Store action `setNodes` (`store.ts`). -/
def setNodes (s : AppState) (nodes : List RFNode) : AppState :=
  { s with nodes := nodes, edges := buildEdgesFromNodes nodes }

/-- Store action `addNode` (`store.ts`): appends the node and, when it
has a parent, the corresponding context edge. -/
def addNode (s : AppState) (n : RFNode) : AppState :=
  { s with
    nodes := s.nodes ++ [n]
    edges :=
      match n.data.parentId with
      | some p => s.edges ++ [mkTreeEdge p n.id]
      | none => s.edges }

/-- Store action `updateNode` (`store.ts`): merges a partial `NodeData`
into the matching node.  The partial update is embedded as a function
`NodeData → NodeData` (the spread `{ ...node.data, ...data }`). -/
def updateNode (s : AppState) (id : String) (patch : NodeData → NodeData) :
    AppState :=
  { s with
    nodes := s.nodes.map fun n =>
      if n.id = id then { n with data := patch n.data } else n }

/-- Store action `addMessage` (`store.ts`): appends the message to the
addressed node's list in the `messages` record. -/
def addMessage (s : AppState) (nodeId : String) (m : Message) : AppState :=
  { s with
    messages := fun k =>
      if k = nodeId then s.messages nodeId ++ [m] else s.messages k }

/-- Store action `addToast` (`store.ts`); the randomly generated id is a
parameter of the embedding. -/
def addToast (s : AppState) (id : String) (kind : ToastKind)
    (message : String) : AppState :=
  { s with toasts := s.toasts ++ [⟨id, kind, message⟩] }

/-- Store action `removeToast` (`store.ts`). -/
def removeToast (s : AppState) (id : String) : AppState :=
  { s with toasts := s.toasts.filter fun t => t.id ≠ id }

/-- Store action `setExpandedNode` (`store.ts`). -/
def setExpandedNode (s : AppState) (id : Option String) : AppState :=
  { s with expandedNodeId := id }

/-- Store action `setCreatingBranchNodeId` (`store.ts`). -/
def setCreatingBranchNodeId (s : AppState) (id : Option String) : AppState :=
  { s with creatingBranchNodeId := id }

/-- Store action `setMergingNodeId` (`store.ts`). -/
def setMergingNodeId (s : AppState) (id : Option String) : AppState :=
  { s with mergingNodeId := id }

/-- Store action `setHighlightedPath` (`store.ts`). -/
def setHighlightedPath (s : AppState) (path : List String) : AppState :=
  { s with highlightedPath := path }

/-- Store action `setCreateProjectModalOpen` (`store.ts`). -/
def setCreateProjectModalOpen (s : AppState) (open_ : Bool) : AppState :=
  { s with createProjectModalOpen := open_ }

/-- Re-parents a child of the removed node onto the removed node's own
parent (`parentId || null` in `removeNode`). -/
def reparent (removedId : String) (grandparent : Option String)
    (n : RFNode) : RFNode :=
  if n.data.parentId = some removedId then
    { n with data := { n.data with parentId := grandparent } }
  else n

/-- Store action `removeNode` (`store.ts`).  A root node is never
removed: the action only appends the fixed error toast.  Otherwise the
node is dropped from the list, its children are re-parented onto its
parent, edges touching it are dropped, fresh parent→child edges are
added when a parent exists, and the selected/expanded ids are cleared
exactly when they pointed at the removed node. -/
def removeNode (s : AppState) (id : String) : AppState :=
  match s.nodes.find? (fun n => n.id = id) with
  | none =>
      -- `nodeToRemove` is `undefined`: the root guard does not fire and
      -- `parentId` is `undefined`, so children are re-parented to null.
      { s with
        nodes := (s.nodes.filter fun n => n.id ≠ id).map (reparent id none)
        edges := s.edges.filter fun e => e.source ≠ id ∧ e.target ≠ id
        selectedNodeId :=
          if s.selectedNodeId = some id then none else s.selectedNodeId
        expandedNodeId :=
          if s.expandedNodeId = some id then none else s.expandedNodeId }
  | some nodeToRemove =>
      if nodeToRemove.data.nodeKind = NodeKind.root then
        { s with
          toasts := s.toasts ++
            [⟨"root-delete-err", ToastKind.error, "Cannot delete root node"⟩] }
      else
        let parentId := nodeToRemove.data.parentId
        let children := s.nodes.filter fun n => n.data.parentId = some id
        let updatedNodes :=
          (s.nodes.filter fun n => n.id ≠ id).map (reparent id parentId)
        let keptEdges := s.edges.filter fun e => e.source ≠ id ∧ e.target ≠ id
        let updatedEdges :=
          match parentId with
          | some p => keptEdges ++ children.map fun c => mkTreeEdge p c.id
          | none => keptEdges
        { s with
          nodes := updatedNodes
          edges := updatedEdges
          selectedNodeId :=
            if s.selectedNodeId = some id then none else s.selectedNodeId
          expandedNodeId :=
            if s.expandedNodeId = some id then none else s.expandedNodeId }

/-- The parent step of the `setSelectedNode` path walk: looks the id up
in the node list and reads its `parentId` (`node?.data.parentId || null`). -/
def parentOf (nodes : List RFNode) (id : String) : Option String :=
  (nodes.find? fun n => n.id = id).bind fun n => n.data.parentId

/-- The `while (currentId)` loop of `setSelectedNode`, with fuel.  Each
iteration prepends the current id, so the finished path reads root-first
and ends at the starting id.  `none` means the fuel ran out. -/
def pathLoop (nodes : List RFNode) : Nat → Option String →
    Option (List String)
  | _, none => some []
  | 0, some _ => none
  | fuel + 1, some c =>
      (pathLoop nodes fuel (parentOf nodes c)).map (· ++ [c])

/-- Store action `setSelectedNode` (`store.ts`).  The real loop is
unbounded; it is run here with fuel `nodes.length + 1`, which suffices
for every terminating run (proved below), so a `none` result means the
real code would spin forever on a `parentId` cycle. -/
def setSelectedNode (s : AppState) (id : Option String) :
    Option AppState :=
  match id with
  | none => some { s with selectedNodeId := none, highlightedPath := [] }
  | some i =>
      (pathLoop s.nodes (s.nodes.length + 1) (some i)).map fun path =>
        { s with selectedNodeId := some i, highlightedPath := path }

/-- Models the reactflow `addEdge` helper used by `onConnect`: appends a
`context` edge for the connection (reactflow generates the edge id from
the endpoints; duplicates are not re-added, which no claim touches, so
the plain append path is modelled). -/
def rfAddEdge (source target : String) (edges : List RFEdge) :
    List RFEdge :=
  edges ++
    [{ id := "reactflow__edge-" ++ source ++ "-" ++ target
       source := source
       target := target
       edgeKind := "context"
       animated := false
       style := { strokeWidthTenths := 15, strokeDasharray := none } }]

/-- Store action `onConnect` (`store.ts`). -/
def onConnect (s : AppState) (source target : String) : AppState :=
  { s with edges := rfAddEdge source target s.edges }

/-- Store action `fetchNodes` (`store.ts`), collapsed to its final
state; the network outcome is the parameter (`some ns` on success,
`none` on failure, which adds the error toast with a generated id). -/
def fetchNodes (s : AppState) (outcome : Option (List RFNode))
    (toastId : String) : AppState :=
  match outcome with
  | some ns =>
      { s with
        nodes := ns
        edges := buildEdgesFromNodes ns
        isInitialized := true
        loading := fun k => if k = "nodes" then false else s.loading k }
  | none =>
      { s with
        isInitialized := true
        loading := fun k => if k = "nodes" then false else s.loading k
        toasts := s.toasts ++
          [⟨toastId, ToastKind.error, "Failed to load nodes from server"⟩] }

/-- Store action `fetchProjects` (`store.ts`), collapsed to its final
state, network outcome as parameter. -/
def fetchProjects (s : AppState) (outcome : Option (List Project))
    (toastId : String) : AppState :=
  match outcome with
  | some ps =>
      { s with
        projects := ps
        loading := fun k => if k = "projects" then false else s.loading k }
  | none =>
      { s with
        loading := fun k => if k = "projects" then false else s.loading k
        toasts := s.toasts ++
          [⟨toastId, ToastKind.error, "Failed to load projects"⟩] }

/-- Store action `setCurrentProject` (`store.ts`), collapsed to its
final state.  The first `set` clears nodes/edges; on a non-null id the
fetched nodes (or a failure toast) follow.  The `messages` record is
never touched. -/
def setCurrentProject (s : AppState) (id : Option String)
    (outcome : Option (List RFNode)) (toastId : String) : AppState :=
  let s0 := { s with
    currentProjectId := id, nodes := [], edges := [], isInitialized := false }
  match id with
  | none => { s0 with isInitialized := true }
  | some _ =>
      match outcome with
      | some ns =>
          { s0 with
            nodes := ns
            edges := buildEdgesFromNodes ns
            isInitialized := true
            loading := fun k => if k = "nodes" then false else s0.loading k }
      | none =>
          { s0 with
            isInitialized := true
            loading := fun k => if k = "nodes" then false else s0.loading k
            toasts := s0.toasts ++
              [⟨toastId, ToastKind.error, "Failed to load project nodes"⟩] }

/-- Store action `createProject` (`store.ts`), collapsed to its final
state, network outcome as parameter. -/
def createProject (s : AppState) (outcome : Option Project)
    (toastId : String) : AppState :=
  match outcome with
  | some p =>
      { s with
        projects := p :: s.projects
        toasts := s.toasts ++
          [⟨toastId, ToastKind.success, "Created project: " ++ p.name⟩] }
  | none =>
      { s with
        toasts := s.toasts ++
          [⟨toastId, ToastKind.error, "Failed to create project"⟩] }

/-- Store action `onNodesChange` (`store.ts`).  The reactflow
`applyNodeChanges` helper is third-party library code; the embedding
takes the resulting transformation on the node list as a parameter. -/
def onNodesChange (s : AppState) (apply : List RFNode → List RFNode) :
    AppState :=
  { s with nodes := apply s.nodes }

/-- Store action `onEdgesChange` (`store.ts`); the third-party
`applyEdgeChanges` helper is the function parameter. -/
def onEdgesChange (s : AppState) (apply : List RFEdge → List RFEdge) :
    AppState :=
  { s with edges := apply s.edges }

/-- One observable store mutation: `Step s t` holds when some store
action of `store.ts`, at some arguments, turns state `s` into state `t`.
Network results, generated toast ids and third-party change appliers are
existentially quantified constructor arguments.  `setSelectedNode` only
steps when its path walk terminates. -/
inductive Step : AppState → AppState → Prop where
  | ofFetchProjects (s : AppState) (outcome : Option (List Project))
      (toastId : String) : Step s (fetchProjects s outcome toastId)
  | ofSetCurrentProject (s : AppState) (id : Option String)
      (outcome : Option (List RFNode)) (toastId : String) :
      Step s (setCurrentProject s id outcome toastId)
  | ofCreateProject (s : AppState) (outcome : Option Project)
      (toastId : String) : Step s (createProject s outcome toastId)
  | ofSetCreateProjectModalOpen (s : AppState) (open_ : Bool) :
      Step s (setCreateProjectModalOpen s open_)
  | ofFetchNodes (s : AppState) (outcome : Option (List RFNode))
      (toastId : String) : Step s (fetchNodes s outcome toastId)
  | ofSetNodes (s : AppState) (nodes : List RFNode) :
      Step s (setNodes s nodes)
  | ofOnNodesChange (s : AppState) (apply : List RFNode → List RFNode) :
      Step s (onNodesChange s apply)
  | ofOnEdgesChange (s : AppState) (apply : List RFEdge → List RFEdge) :
      Step s (onEdgesChange s apply)
  | ofOnConnect (s : AppState) (source target : String) :
      Step s (onConnect s source target)
  | ofAddNode (s : AppState) (n : RFNode) : Step s (addNode s n)
  | ofUpdateNode (s : AppState) (id : String) (patch : NodeData → NodeData) :
      Step s (updateNode s id patch)
  | ofRemoveNode (s : AppState) (id : String) : Step s (removeNode s id)
  | ofSetSelectedNode (s t : AppState) (id : Option String)
      (h : setSelectedNode s id = some t) : Step s t
  | ofSetExpandedNode (s : AppState) (id : Option String) :
      Step s (setExpandedNode s id)
  | ofSetCreatingBranchNodeId (s : AppState) (id : Option String) :
      Step s (setCreatingBranchNodeId s id)
  | ofSetMergingNodeId (s : AppState) (id : Option String) :
      Step s (setMergingNodeId s id)
  | ofSetHighlightedPath (s : AppState) (path : List String) :
      Step s (setHighlightedPath s path)
  | ofAddMessage (s : AppState) (nodeId : String) (m : Message) :
      Step s (addMessage s nodeId m)
  | ofAddToast (s : AppState) (id : String) (kind : ToastKind)
      (message : String) : Step s (addToast s id kind message)
  | ofRemoveToast (s : AppState) (id : String) :
      Step s (removeToast s id)

/-- The `calculatePosition` helper of `BranchModal` (in the cited modal
source file): position of a new branch under `parentId`, placed below
the parent and offset by the number of existing siblings.  The source
dereferences the parent with a non-null assertion; the embedding returns
`none` when the parent id is absent from the list. -/
def calculatePosition (nodes : List RFNode) (parentId : String) :
    Option Pos :=
  (nodes.find? fun n => n.id = parentId).map fun parent =>
    let siblings := nodes.filter fun n => n.data.parentId = some parentId
    let xOffset : ℚ :=
      (siblings.length * 350 : ℚ) - (if siblings.length > 0 then 100 else 0)
    let yOffset : ℚ := 400
    ⟨parent.position.x + xOffset, parent.position.y + yOffset⟩

/-- The `potentialTargets` list of `MergeModal.tsx`: every node other
than the merging source whose status is not `deleted`. -/
def potentialTargets (nodes : List RFNode) (mergingNodeId : String) :
    List RFNode :=
  nodes.filter fun n =>
    n.id ≠ mergingNodeId ∧ n.data.status ≠ NodeStatus.deleted

/-- The backend reply to `nodesApi.createNode`, as read by the merge and
branch handlers. -/
structure CreateNodeResponse where
  nodeId : String
  title : String
  nodeKind : NodeKind
  status : NodeStatus
  parentId : Option String
  position : Option Pos
  createdAt : String
  deriving DecidableEq, Repr

/-- The `handleMerge` handler of `MergeModal.tsx` (the current version,
which creates a fresh merged node rather than calling the merge
endpoint).  `node` is the merging source, `resp` the `createNode`
network outcome (`none` on any thrown error).  On success it adds the
new node (primary parent the source, `mergeParentId` the target), wires
both context edges via `onConnect`, raises the success toast and closes
the modal (`setMergingNodeId null`); on failure only the error toast is
raised. -/
def handleMerge (s : AppState) (node : RFNode) (selectedTargetId : String)
    (resp : Option CreateNodeResponse) (toastId : String) : AppState :=
  if selectedTargetId = "" then
    addToast s toastId ToastKind.error "No target node selected"
  else
    match s.nodes.find? (fun n => n.id = selectedTargetId) with
    | none => addToast s toastId ToastKind.error "Failed to merge nodes"
    | some targetNode =>
        match resp with
        | none => addToast s toastId ToastKind.error "Failed to merge nodes"
        | some r =>
            let newX := (node.position.x + targetNode.position.x) / 2
            let newY := max node.position.y targetNode.position.y + 200
            let newNode : RFNode :=
              { id := r.nodeId
                rfKind := "custom"
                position := r.position.getD ⟨newX, newY⟩
                data :=
                  { title := r.title
                    nodeKind := r.nodeKind
                    status := r.status
                    parentId := r.parentId
                    mergeParentId := some targetNode.id
                    messageCount := 0
                    tokenCount := 0
                    inheritedContext :=
                      "Merged context from " ++ node.data.title ++
                        " and " ++ targetNode.data.title
                    lastActivity := r.createdAt } }
            let s1 := addNode s newNode
            let s2 := onConnect s1 node.id newNode.id
            let s3 := onConnect s2 targetNode.id newNode.id
            let s4 :=
              addToast s3 toastId ToastKind.success
                "Merged successfully into new node"
            setMergingNodeId s4 none

/-! The backend entity store and orchestrator.  The repository ships the
backend only as design documents (the agent coding prompt's route
implementation details and `BACKEND_DESCRIPTION.md`); no backend source
file is present.  The definitions below are therefore modelled from the
spec, following the route descriptions word for word. -/

/-- Modelled from the spec: a backend `nodes` row (spec §3 Node; the
canvas position and timestamps are opaque to the claims and omitted). -/
structure BNode where
  nodeId : String
  parentId : Option String
  title : String
  nodeKind : NodeKind
  status : NodeStatus
  deriving DecidableEq, Repr

/-- Modelled from the spec: one fact of a summary payload, tagged with
its originating node and a confidence score (spec §3 Summary). -/
structure Fact where
  text : String
  sourceNode : String
  confidence : ℚ
  deriving DecidableEq, Repr

/-- Modelled from the spec: one decision of a summary payload. -/
structure Decision where
  text : String
  sourceNode : String
  rationale : String
  confidence : ℚ
  deriving DecidableEq, Repr

/-- Modelled from the spec: the structured summary payload (facts,
decisions, open questions). -/
structure SummaryPayload where
  facts : List Fact
  decisions : List Decision
  openQuestions : List String
  deriving DecidableEq, Repr

/-- Modelled from the spec: a `node_summaries` row. -/
structure BSummary where
  summaryId : String
  nodeId : String
  payload : SummaryPayload
  isLatest : Bool
  deriving DecidableEq, Repr

/-- Modelled from the spec: a ledger event row (`node_events`); the
structured payload is kept as a string, no claim reads it. -/
structure BEvent where
  nodeId : String
  eventKind : String
  payload : String
  deriving DecidableEq, Repr

/-- Modelled from the spec: a `knowledge_graph` row. -/
structure GEdge where
  fromEntity : String
  toEntity : String
  relationKind : String
  sourceNode : String
  confidence : ℚ
  deletedAt : Option String
  deriving DecidableEq, Repr

/-- Modelled from the spec: the backend entity store plus ledger. -/
structure BState where
  nodes : List BNode
  events : List BEvent
  summaries : List BSummary
  graphEdges : List GEdge
  deriving DecidableEq, Repr

/-- Modelled from the spec: ledger `append` (spec §4.1), which never
rejects once the orchestrator has validated the operation. -/
def recordEvent (s : BState) (nodeId eventKind payload : String) : BState :=
  { s with events := s.events ++ [⟨nodeId, eventKind, payload⟩] }

/-- Modelled from the spec: `crud.summaries.create_summary` — demotes
the node's previous latest summary and inserts the new row with
`is_latest = true` (spec §3 Summary invariant). -/
def createSummary (s : BState) (nodeId summaryId : String)
    (payload : SummaryPayload) : BState :=
  { s with
    summaries :=
      (s.summaries.map fun sm =>
        if sm.nodeId = nodeId then { sm with isLatest := false } else sm) ++
      [⟨summaryId, nodeId, payload, true⟩] }

/-- The latest-flagged summary row of a node (reading the
`is_latest = true` row; with the invariant there is at most one, the
last such row is read). -/
def latestSummary (s : BState) (nodeId : String) : Option BSummary :=
  (s.summaries.filter fun sm => sm.nodeId = nodeId ∧ sm.isLatest).getLast?

/-- Two graph edges collide on the uniqueness key
(source entity, target entity, relation, owning node). -/
def sameEdgeKey (a b : GEdge) : Prop :=
  a.fromEntity = b.fromEntity ∧ a.toEntity = b.toEntity ∧
    a.relationKind = b.relationKind ∧ a.sourceNode = b.sourceNode

instance (a b : GEdge) : Decidable (sameEdgeKey a b) := by
  unfold sameEdgeKey; infer_instance

/-- Modelled from the spec: `graph_service.store_graph_edges` — inserts
new edges owned by the node, silently skipping any that violate the
uniqueness invariant (spec §4.5). -/
def storeGraphEdges (s : BState) (edges : List GEdge) : BState :=
  { s with
    graphEdges :=
      edges.foldl
        (fun acc e =>
          if acc.any (fun e2 => sameEdgeKey e2 e) then acc else acc ++ [e])
        s.graphEdges }

/-- The response of the summarize route: the stored summary id, the
graph sub-step status (`success` or `failed`) and its error detail. -/
structure SummarizeResponse where
  summaryId : String
  graphStatus : String
  graphError : Option String
  deriving DecidableEq, Repr

/-- Modelled from the spec: the `summarize_node` route (spec §4.2 and
the agent coding prompt's route details).  The node must exist and be
`active`; the summarizer output arrives pre-parsed as
`parsed : Option SummaryPayload` (`none` = malformed JSON, a 500).  The
summary is persisted (demoting the prior latest) and the `summarized`
event written; only then does graph extraction run, its network/parse
outcome the parameter `graphResult` (`none` = any exception).  A graph
failure is caught: the response carries `graphStatus = "failed"` and the
already-committed state is returned untouched. -/
def summarizeNode (s : BState) (nodeId : String)
    (parsed : Option SummaryPayload) (summaryId : String)
    (graphResult : Option (List GEdge)) :
    Except String (BState × SummarizeResponse) :=
  match s.nodes.find? (fun n => n.nodeId = nodeId) with
  | none => Except.error "NotFound"
  | some n =>
      if n.status ≠ NodeStatus.active then Except.error "InvalidState"
      else
        match parsed with
        | none => Except.error "MalformedAgentOutput"
        | some p =>
            let committed :=
              recordEvent (createSummary s nodeId summaryId p)
                nodeId "SUMMARY_UPDATED" summaryId
            match graphResult with
            | some es =>
                Except.ok
                  (recordEvent (storeGraphEdges committed es)
                      nodeId "GRAPH_UPDATED" "",
                    ⟨summaryId, "success", none⟩)
            | none =>
                Except.ok
                  (committed,
                    ⟨summaryId, "failed",
                      some "Graph extraction failed. Re-run summarize to retry."⟩)

/-- Iterates a partial parent function `k` times from `a`. -/
def iterStep (f : String → Option String) : Nat → String → Option String
  | 0, a => some a
  | k + 1, a => (f a).bind (iterStep f k)

/-- A partial parent function is acyclic when no positive number of
steps returns to its starting point. -/
def Acyclic (f : String → Option String) : Prop :=
  ∀ (a : String) (k : Nat), 0 < k → iterStep f k a ≠ some a

/-- The parent step over the backend node table. -/
def bparentOf (nodes : List BNode) (id : String) : Option String :=
  (nodes.find? fun n => n.nodeId = id).bind fun n => n.parentId

/-- The ancestor chain collected by walking a parent function with fuel:
parent, grandparent, and so on. -/
def ancChain (f : String → Option String) : Nat → String → List String
  | 0, _ => []
  | k + 1, a =>
      match f a with
      | none => []
      | some p => p :: ancChain f k p

/-- The strict ancestors of a backend node: the lineage walk from the
node (spec §4.2 merge: "walk lineage from source, check if target is in
it"), bounded by the table size. -/
def strictAncestors (nodes : List BNode) (id : String) : List String :=
  ancChain (bparentOf nodes) nodes.length id

/-- Error taxonomy of the merge validation (spec §7). -/
inductive MergeError where
  | notFound
  | invalidState
  deriving DecidableEq, Repr

/-- Modelled from the spec: the validation step of the `merge_nodes`
route — both nodes must exist (`NotFound` otherwise), the source must be
`active` and a proper descendant of the target (`InvalidState`
otherwise, spec §4.2 and §7). -/
def mergeValidate (nodes : List BNode) (srcId tgtId : String) :
    Except MergeError Unit :=
  match nodes.find? (fun n => n.nodeId = srcId),
      nodes.find? (fun n => n.nodeId = tgtId) with
  | some src, some _ =>
      if src.status ≠ NodeStatus.active then Except.error MergeError.invalidState
      else if tgtId ∈ strictAncestors nodes srcId then Except.ok ()
      else Except.error MergeError.invalidState
  | _, _ => Except.error MergeError.notFound

/-! Concrete fixtures, taken from the mock initial store state of the
pre-API store version (root "AI Cognition" with one child
"Neural Pathways"). -/

/-- The mock root node of the initial store state. -/
def demoRoot : RFNode :=
  { id := "root"
    rfKind := "custom"
    position := ⟨0, 0⟩
    data :=
      { title := "AI Cognition"
        nodeKind := NodeKind.root
        status := NodeStatus.active
        parentId := none
        mergeParentId := none
        messageCount := 5
        tokenCount := 1200
        inheritedContext := "Foundation models and ethical constraints."
        lastActivity := "t0" } }

/-- The mock child node of the initial store state. -/
def demoNode2 : RFNode :=
  { id := "node-2"
    rfKind := "custom"
    position := ⟨400, 300⟩
    data :=
      { title := "Neural Pathways"
        nodeKind := NodeKind.standard
        status := NodeStatus.active
        parentId := some "root"
        mergeParentId := none
        messageCount := 2
        tokenCount := 400
        inheritedContext := "Mapping synaptic weights to logical operators."
        lastActivity := "t0" } }

/-- A concrete store state holding the two mock nodes. -/
def demoState : AppState :=
  { nodes := [demoRoot, demoNode2]
    edges := [mkTreeEdge "root" "node-2"]
    isInitialized := true
    projects := []
    currentProjectId := none
    createProjectModalOpen := false
    selectedNodeId := none
    expandedNodeId := none
    creatingBranchNodeId := none
    mergingNodeId := none
    highlightedPath := []
    messages := fun _ => []
    loading := fun _ => false
    toasts := [] }

/-- The `createNode` response used by the merge counterexample. -/
def demoResp : CreateNodeResponse :=
  { nodeId := "merge-1"
    title := "Merge: Neural Pathways & AI Cognition"
    nodeKind := NodeKind.standard
    status := NodeStatus.active
    parentId := some "node-2"
    position := none
    createdAt := "t1" }

/-- Demo message used by the C6 witness. -/
def demoMsg : Message :=
  { id := "m1"
    role := MsgRole.user
    content := "Should we use CNN or XGBoost?"
    timestamp := "t1"
    metadata := [] }

/-- Backend demo node for the C1 witness. -/
def demoBNode : BNode :=
  { nodeId := "N"
    parentId := none
    title := "Node N"
    nodeKind := NodeKind.standard
    status := NodeStatus.active }

/-- Backend demo state for the C1 witness. -/
def demoBState : BState :=
  { nodes := [demoBNode], events := [], summaries := [], graphEdges := [] }

/-- Demo summary payload for the C1 witness. -/
def demoPayload : SummaryPayload :=
  { facts := [⟨"Healthcare domain selected", "N", 1⟩]
    decisions := []
    openQuestions := [] }

/-- Backend demo lineage for the C3 witness: root `R` with child `C`. -/
def demoBTree : List BNode :=
  [{ nodeId := "R", parentId := none, title := "Root"
     nodeKind := NodeKind.root, status := NodeStatus.active },
   { nodeId := "C", parentId := some "R", title := "Child"
     nodeKind := NodeKind.standard, status := NodeStatus.active }]

/-- Membership in the per-node edge contribution of
`buildEdgesFromNodes`. -/
lemma mem_edgesOfNode {e : RFEdge} {n : RFNode} :
    e ∈ edgesOfNode n ↔
      (∃ p, n.data.parentId = some p ∧ e = mkTreeEdge p n.id) ∨
      (∃ q, n.data.mergeParentId = some q ∧ e = mkMergeEdge q n.id) := by
  unfold edgesOfNode
  cases hp : n.data.parentId <;> cases hq : n.data.mergeParentId <;>
    simp [hp, hq]

/-- Claim C10: `buildEdgesFromNodes` returns exactly one primary edge
per node with a `parentId` (source the parent, target the node) and one
dashed merge edge per node with a `mergeParentId`, and nothing else: an
edge is in the result iff it is one of those, and the count is the
number of parent links plus the number of merge links. -/
theorem buildEdgesFromNodes_exact (nodes : List RFNode) :
    (∀ e, e ∈ buildEdgesFromNodes nodes ↔
      ((∃ n ∈ nodes, ∃ p, n.data.parentId = some p ∧ e = mkTreeEdge p n.id) ∨
        (∃ n ∈ nodes, ∃ q,
          n.data.mergeParentId = some q ∧ e = mkMergeEdge q n.id))) ∧
    (buildEdgesFromNodes nodes).length =
      (nodes.filter fun n => n.data.parentId.isSome).length +
        (nodes.filter fun n => n.data.mergeParentId.isSome).length := by
  constructor
  · intro e
    unfold buildEdgesFromNodes
    rw [List.mem_flatMap]
    constructor
    · rintro ⟨n, hn, he⟩
      rcases mem_edgesOfNode.1 he with ⟨p, hp, rfl⟩ | ⟨q, hq, rfl⟩
      · exact Or.inl ⟨n, hn, p, hp, rfl⟩
      · exact Or.inr ⟨n, hn, q, hq, rfl⟩
    · rintro (⟨n, hn, p, hp, rfl⟩ | ⟨n, hn, q, hq, rfl⟩)
      · exact ⟨n, hn, mem_edgesOfNode.2 (Or.inl ⟨p, hp, rfl⟩)⟩
      · exact ⟨n, hn, mem_edgesOfNode.2 (Or.inr ⟨q, hq, rfl⟩)⟩
  · induction nodes with
    | nil => rfl
    | cons n t ih =>
        unfold buildEdgesFromNodes at ih ⊢
        simp only [List.flatMap_cons, List.length_append, List.filter_cons]
        cases hp : n.data.parentId <;> cases hq : n.data.mergeParentId <;>
          simp [edgesOfNode, hp, hq, ih] <;> omega

/-- The position the claim describes for a new branch:
`(px + 350*k - (100 if k > 0 else 0), py + 400)` from the parent's
position `(px, py)` and the sibling count `k`. -/
def claimedBranchPosition (px py : ℚ) (k : Nat) : Pos :=
  ⟨px + (350 * (k : ℚ) - if 0 < k then 100 else 0), py + 400⟩

/-- The number of existing children of `parentId` in the node list. -/
def siblingCount (nodes : List RFNode) (parentId : String) : Nat :=
  (nodes.filter fun n => n.data.parentId = some parentId).length

/-- Claim C7: `calculatePosition` computes exactly the claimed pure
formula of the parent's position and the sibling count.  The function is
a plain function of the node list (the only state it reads), so
determinism and absence of state change are definitional in this
embedding. -/
theorem calculatePosition_formula (nodes : List RFNode) (parentId : String)
    (parent : RFNode)
    (hfind : nodes.find? (fun n => n.id = parentId) = some parent) :
    calculatePosition nodes parentId =
      some (claimedBranchPosition parent.position.x parent.position.y
        (siblingCount nodes parentId)) := by
  unfold calculatePosition claimedBranchPosition siblingCount
  rw [hfind]
  simp only [Option.map_some']
  congr 1
  rcases Nat.eq_zero_or_pos
      (nodes.filter fun n => n.data.parentId = some parentId).length with
    h | h
  · simp [h]
  · simp only [h, if_pos, gt_iff_lt]
    congr 1
    ring

/-- Claim C7 witness: the branch position under the demo root, which has
one existing child. -/
theorem calculatePosition_formula_witness :
    calculatePosition demoState.nodes "root" =
      some (claimedBranchPosition demoRoot.position.x demoRoot.position.y
        (siblingCount demoState.nodes "root")) :=
  calculatePosition_formula demoState.nodes "root" demoRoot (by decide)

/-- Claim C5: a delete request on a node of kind `root` changes nothing
but the toast list, to which the fixed error toast is appended; nodes,
edges and every other field are untouched. -/
theorem removeNode_root_only_toast (s : AppState) (id : String) (n : RFNode)
    (hfind : s.nodes.find? (fun x => x.id = id) = some n)
    (hroot : n.data.nodeKind = NodeKind.root) :
    removeNode s id =
      { s with toasts := s.toasts ++
          [⟨"root-delete-err", ToastKind.error, "Cannot delete root node"⟩] } := by
  simp only [removeNode, hfind]
  rw [if_pos hroot]

/-- Claim C5 witness: deleting the demo root appends the error toast and
nothing else. -/
theorem removeNode_root_only_toast_witness :
    removeNode demoState "root" =
      { demoState with toasts := demoState.toasts ++
          [⟨"root-delete-err", ToastKind.error, "Cannot delete root node"⟩] } :=
  removeNode_root_only_toast demoState "root" demoRoot (by decide) (by decide)

/-- Re-parenting preserves a node's id. -/
lemma reparent_id (a : String) (b : Option String) (n : RFNode) :
    (reparent a b n).id = n.id := by
  unfold reparent; split <;> rfl

/-- After `removeNode` on a found non-root node, no node with the
removed id remains in the collection. -/
lemma removeNode_no_id (s : AppState) (id : String) (n : RFNode)
    (hfind : s.nodes.find? (fun x => x.id = id) = some n)
    (hroot : n.data.nodeKind ≠ NodeKind.root) :
    ∀ m ∈ (removeNode s id).nodes, m.id ≠ id := by
  intro m hm
  simp only [removeNode, hfind] at hm
  rw [if_neg hroot] at hm
  simp only at hm
  obtain ⟨m0, hm0, rfl⟩ := List.mem_map.1 hm
  have h2 := (List.mem_filter.1 hm0).2
  rw [reparent_id]
  simpa using h2

/-- Claim C4 counterexample: deleting the demo child physically removes
it from the store's node collection — it does not remain with status
`deleted`, refuting the claim at this input. -/
theorem removeNode_not_soft_delete :
    ((removeNode demoState "node-2").nodes.find? fun n => n.id = "node-2") =
      none := by decide

/-- Claim C4 amended: a delete on a non-root node physically removes the
node from the store's node collection (the store mirrors the backend's
tree read, which omits deleted nodes); no node carrying the deleted id
remains. -/
theorem removeNode_physically_removes (s : AppState) (id : String)
    (n : RFNode) (hfind : s.nodes.find? (fun x => x.id = id) = some n)
    (hroot : n.data.nodeKind ≠ NodeKind.root) :
    ∀ m ∈ (removeNode s id).nodes, m.id ≠ id :=
  removeNode_no_id s id n hfind hroot

/-- Claim C4 amended witness: the demo child is not a root, and deleting
it leaves no node with its id. -/
theorem removeNode_physically_removes_witness :
    demoNode2.data.nodeKind ≠ NodeKind.root ∧
    ∀ m ∈ (removeNode demoState "node-2").nodes, m.id ≠ "node-2" :=
  ⟨by decide,
    removeNode_physically_removes demoState "node-2" demoNode2
      (by decide) (by decide)⟩

/-- Claim C8: the full effect of `removeNode` on a non-root node with
parent `p = n.data.parentId`: the node is gone and every survivor is the
original with its parent redirected to `p` exactly when it was a child
of the removed node; edges incident to the removed node are gone, with a
fresh parent→child edge per former child when `p` exists; the selected
and expanded ids are cleared exactly when they referenced the node. -/
theorem removeNode_nonroot_spec (s : AppState) (id : String) (n : RFNode)
    (hfind : s.nodes.find? (fun x => x.id = id) = some n)
    (hroot : n.data.nodeKind ≠ NodeKind.root) :
    (∀ m, m ∈ (removeNode s id).nodes ↔
      ∃ m0 ∈ s.nodes, m0.id ≠ id ∧
        m = (if m0.data.parentId = some id then
              { m0 with data := { m0.data with parentId := n.data.parentId } }
            else m0)) ∧
    (∀ e, e ∈ (removeNode s id).edges ↔
      ((e ∈ s.edges ∧ e.source ≠ id ∧ e.target ≠ id) ∨
        (∃ p, n.data.parentId = some p ∧
          ∃ c ∈ s.nodes, c.data.parentId = some id ∧ e = mkTreeEdge p c.id))) ∧
    ((removeNode s id).selectedNodeId =
      if s.selectedNodeId = some id then none else s.selectedNodeId) ∧
    ((removeNode s id).expandedNodeId =
      if s.expandedNodeId = some id then none else s.expandedNodeId) := by
  have hred :
      removeNode s id =
        { s with
          nodes :=
            (s.nodes.filter fun x => x.id ≠ id).map (reparent id n.data.parentId)
          edges :=
            (match n.data.parentId with
              | some p =>
                  (s.edges.filter fun e => e.source ≠ id ∧ e.target ≠ id) ++
                    (s.nodes.filter fun x => x.data.parentId = some id).map
                      fun c => mkTreeEdge p c.id
              | none =>
                  s.edges.filter fun e => e.source ≠ id ∧ e.target ≠ id)
          selectedNodeId :=
            if s.selectedNodeId = some id then none else s.selectedNodeId
          expandedNodeId :=
            if s.expandedNodeId = some id then none else s.expandedNodeId } := by
    simp only [removeNode, hfind]
    rw [if_neg hroot]
  refine ⟨?_, ?_, by rw [hred], by rw [hred]⟩
  · intro m
    rw [hred]
    simp only [List.mem_map, List.mem_filter, decide_eq_true_eq]
    constructor
    · rintro ⟨m0, ⟨hm0, hne⟩, rfl⟩
      exact ⟨m0, hm0, hne, by unfold reparent; split <;> simp_all⟩
    · rintro ⟨m0, hm0, hne, rfl⟩
      exact ⟨m0, ⟨hm0, hne⟩, by unfold reparent; split <;> simp_all⟩
  · intro e
    rw [hred]
    cases hp : n.data.parentId with
    | none =>
        simp only [List.mem_filter, decide_eq_true_eq]
        constructor
        · rintro ⟨he, h1, h2⟩; exact Or.inl ⟨he, h1, h2⟩
        · rintro (⟨he, h1, h2⟩ | ⟨p, hps, -⟩)
          · exact ⟨he, h1, h2⟩
          · cases hps
    | some p =>
        simp only [List.mem_append, List.mem_filter, List.mem_map,
          decide_eq_true_eq]
        constructor
        · rintro (⟨he, h1, h2⟩ | ⟨c, hc, rfl⟩)
          · exact Or.inl ⟨he, h1, h2⟩
          · exact Or.inr ⟨p, rfl, c, hc.1, hc.2, rfl⟩
        · rintro (⟨he, h1, h2⟩ | ⟨q, hq, c, hc, hcp, rfl⟩)
          · exact Or.inl ⟨he, h1, h2⟩
          · cases hq
            exact Or.inr ⟨c, ⟨hc, hcp⟩, rfl⟩

/-- Claim C8 witness: the effect of removing the demo child node. -/
theorem removeNode_nonroot_spec_witness :
    (∀ m, m ∈ (removeNode demoState "node-2").nodes ↔
      ∃ m0 ∈ demoState.nodes, m0.id ≠ "node-2" ∧
        m = (if m0.data.parentId = some "node-2" then
              { m0 with data :=
                  { m0.data with parentId := demoNode2.data.parentId } }
            else m0)) ∧
    (∀ e, e ∈ (removeNode demoState "node-2").edges ↔
      ((e ∈ demoState.edges ∧ e.source ≠ "node-2" ∧ e.target ≠ "node-2") ∨
        (∃ p, demoNode2.data.parentId = some p ∧
          ∃ c ∈ demoState.nodes,
            c.data.parentId = some "node-2" ∧ e = mkTreeEdge p c.id))) ∧
    ((removeNode demoState "node-2").selectedNodeId =
      if demoState.selectedNodeId = some "node-2" then none
      else demoState.selectedNodeId) ∧
    ((removeNode demoState "node-2").expandedNodeId =
      if demoState.expandedNodeId = some "node-2" then none
      else demoState.expandedNodeId) :=
  removeNode_nonroot_spec demoState "node-2" demoNode2 (by decide) (by decide)

/-- Claim C2 counterexample: a merge of the demo child into the demo
root completes (the success toast is raised), yet the source node's
status is still `active`, not `frozen` — the handler never freezes the
source. -/
theorem handleMerge_source_stays_active :
    ((((handleMerge demoState demoNode2 "root" (some demoResp)
          "toast-1").nodes.find? fun n => n.id = "node-2").map
        fun n => n.data.status) = some NodeStatus.active) ∧
    ((handleMerge demoState demoNode2 "root" (some demoResp)
        "toast-1").toasts.getLast? =
      some ⟨"toast-1", ToastKind.success, "Merged successfully into new node"⟩) ∧
    NodeStatus.active ≠ NodeStatus.frozen := by
  refine ⟨by decide, by decide, by decide⟩

/-- Claim C2 amended: a completed merge freezes nothing — it leaves
every pre-existing node (the source included) untouched and appends one
fresh node whose `mergeParentId` is the target and whose status comes
from the create response; in particular no node, descendant of the
target or not, is ever set to `frozen` by the handler. -/
theorem handleMerge_appends_only (s : AppState) (node : RFNode)
    (tgtId : String) (target : RFNode) (r : CreateNodeResponse)
    (tid : String) (hne : tgtId ≠ "")
    (htgt : s.nodes.find? (fun n => n.id = tgtId) = some target) :
    ∃ newNode : RFNode,
      (handleMerge s node tgtId (some r) tid).nodes = s.nodes ++ [newNode] ∧
      newNode.data.mergeParentId = some target.id ∧
      newNode.data.status = r.status ∧
      ∀ m ∈ s.nodes, m ∈ (handleMerge s node tgtId (some r) tid).nodes := by
  have hred :
      (handleMerge s node tgtId (some r) tid).nodes = s.nodes ++
        [{ id := r.nodeId
           rfKind := "custom"
           position := r.position.getD
             ⟨(node.position.x + target.position.x) / 2,
               max node.position.y target.position.y + 200⟩
           data :=
             { title := r.title
               nodeKind := r.nodeKind
               status := r.status
               parentId := r.parentId
               mergeParentId := some target.id
               messageCount := 0
               tokenCount := 0
               inheritedContext :=
                 "Merged context from " ++ node.data.title ++
                   " and " ++ target.data.title
               lastActivity := r.createdAt } }] := by
    simp only [handleMerge, if_neg hne, htgt]
    rfl
  refine ⟨_, hred, rfl, rfl, ?_⟩
  intro m hm
  rw [hred]
  exact List.mem_append_left _ hm

/-- Claim C2 amended witness: merging the demo child into the demo root
appends one merged node and keeps the old nodes. -/
theorem handleMerge_appends_only_witness :
    ∃ newNode : RFNode,
      (handleMerge demoState demoNode2 "root" (some demoResp)
          "toast-1").nodes = demoState.nodes ++ [newNode] ∧
      newNode.data.mergeParentId = some demoRoot.id ∧
      newNode.data.status = demoResp.status ∧
      ∀ m ∈ demoState.nodes,
        m ∈ (handleMerge demoState demoNode2 "root" (some demoResp)
          "toast-1").nodes :=
  handleMerge_appends_only demoState demoNode2 "root" demoRoot demoResp
    "toast-1" (by decide) (by decide)

/-- Claim C6: `addMessage` appends the message at the end of exactly the
addressed node's list and leaves every other node's list unchanged; and
across every store action (`Step`), each node's message list only grows
at the end — the old list is always a prefix of the new one, so no
action removes or mutates a previously stored message and insertion
order is kept. -/
theorem messages_append_only (s : AppState) (nodeId : String) (m : Message)
    (t : AppState) (hstep : Step s t) :
    ((addMessage s nodeId m).messages nodeId = s.messages nodeId ++ [m]) ∧
    (∀ other, other ≠ nodeId →
      (addMessage s nodeId m).messages other = s.messages other) ∧
    (∀ k, ∃ tail, t.messages k = s.messages k ++ tail) := by
  refine ⟨by simp [addMessage], fun other h => by simp [addMessage, h], ?_⟩
  intro k
  cases hstep with
  | ofFetchProjects outcome toastId =>
      cases outcome <;> exact ⟨[], by simp [fetchProjects]⟩
  | ofSetCurrentProject id outcome toastId =>
      cases id <;> cases outcome <;> exact ⟨[], by simp [setCurrentProject]⟩
  | ofCreateProject outcome toastId =>
      cases outcome <;> exact ⟨[], by simp [createProject]⟩
  | ofSetCreateProjectModalOpen open_ =>
      exact ⟨[], by simp [setCreateProjectModalOpen]⟩
  | ofFetchNodes outcome toastId =>
      cases outcome <;> exact ⟨[], by simp [fetchNodes]⟩
  | ofSetNodes nodes => exact ⟨[], by simp [setNodes]⟩
  | ofOnNodesChange apply => exact ⟨[], by simp [onNodesChange]⟩
  | ofOnEdgesChange apply => exact ⟨[], by simp [onEdgesChange]⟩
  | ofOnConnect source target => exact ⟨[], by simp [onConnect]⟩
  | ofAddNode n =>
      cases hn : n.data.parentId <;> exact ⟨[], by simp [addNode, hn]⟩
  | ofUpdateNode id patch => exact ⟨[], by simp [updateNode]⟩
  | ofRemoveNode id =>
      rcases hf : s.nodes.find? (fun x => x.id = id) with _ | n
      · exact ⟨[], by simp only [removeNode, hf]; simp⟩
      · by_cases hr : n.data.nodeKind = NodeKind.root
        · exact ⟨[], by simp only [removeNode, hf]; rw [if_pos hr]; simp⟩
        · exact ⟨[], by simp only [removeNode, hf]; rw [if_neg hr]; simp⟩
  | ofSetSelectedNode _ selId h =>
      cases selId with
      | none =>
          simp only [setSelectedNode, Option.some.injEq] at h
          exact ⟨[], by rw [← h]; simp⟩
      | some i =>
          simp only [setSelectedNode] at h
          obtain ⟨path, -, rfl⟩ := Option.map_eq_some'.1 h
          exact ⟨[], by simp⟩
  | ofSetExpandedNode id => exact ⟨[], by simp [setExpandedNode]⟩
  | ofSetCreatingBranchNodeId id =>
      exact ⟨[], by simp [setCreatingBranchNodeId]⟩
  | ofSetMergingNodeId id => exact ⟨[], by simp [setMergingNodeId]⟩
  | ofSetHighlightedPath path => exact ⟨[], by simp [setHighlightedPath]⟩
  | ofAddMessage nid m0 =>
      by_cases hk : k = nid
      · exact ⟨[m0], by simp [addMessage, hk]⟩
      · exact ⟨[], by simp [addMessage, hk]⟩
  | ofAddToast id kind message => exact ⟨[], by simp [addToast]⟩
  | ofRemoveToast id => exact ⟨[], by simp [removeToast]⟩

/-- Claim C6 witness: appending a message in the demo state, against the
`addMessage` step itself. -/
theorem messages_append_only_witness :
    ((addMessage demoState "root" demoMsg).messages "root" =
      demoState.messages "root" ++ [demoMsg]) ∧
    (∀ other, other ≠ "root" →
      (addMessage demoState "root" demoMsg).messages other =
        demoState.messages other) ∧
    (∀ k, ∃ tail,
      (addMessage demoState "node-2" demoMsg).messages k =
        demoState.messages k ++ tail) :=
  messages_append_only demoState "root" demoMsg
    (addMessage demoState "node-2" demoMsg)
    (Step.ofAddMessage demoState "node-2" demoMsg)

/-- After `createSummary`, the latest-flagged summary of the node is the
freshly inserted row (all prior rows for the node were demoted). -/
lemma latestSummary_createSummary (s : BState) (nodeId sid : String)
    (p : SummaryPayload) :
    latestSummary (createSummary s nodeId sid p) nodeId =
      some ⟨sid, nodeId, p, true⟩ := by
  unfold latestSummary createSummary
  simp only [List.filter_append]
  have hnil :
      (s.summaries.map fun sm =>
        if sm.nodeId = nodeId then { sm with isLatest := false } else sm).filter
          (fun sm => decide (sm.nodeId = nodeId ∧ sm.isLatest = true)) = [] := by
    rw [List.filter_eq_nil_iff]
    intro a ha
    obtain ⟨b, -, rfl⟩ := List.mem_map.1 ha
    by_cases hb : b.nodeId = nodeId <;> simp [hb]
  rw [hnil]
  simp

/-- Claim C1: once the summary is persisted and the summarized event
written, a graph-extraction failure (`graphResult = none`) leaves the
operation state exactly at the committed point — the stored summary is
unchanged and still the latest — and the operation succeeds with a
degraded `graphStatus = "failed"` response instead of an error. -/
theorem summarize_graph_failure_isolated (s : BState) (nodeId : String)
    (n : BNode) (p : SummaryPayload) (sid : String)
    (hfind : s.nodes.find? (fun x => x.nodeId = nodeId) = some n)
    (hact : n.status = NodeStatus.active) :
    summarizeNode s nodeId (some p) sid none =
      Except.ok
        (recordEvent (createSummary s nodeId sid p) nodeId
            "SUMMARY_UPDATED" sid,
          ⟨sid, "failed",
            some "Graph extraction failed. Re-run summarize to retry."⟩) ∧
    latestSummary
        (recordEvent (createSummary s nodeId sid p) nodeId
          "SUMMARY_UPDATED" sid) nodeId =
      some ⟨sid, nodeId, p, true⟩ := by
  constructor
  · simp only [summarizeNode, hfind, hact]
    rfl
  · show latestSummary _ nodeId = _
    unfold latestSummary recordEvent
    exact latestSummary_createSummary s nodeId sid p

/-- Claim C1 witness: summarizing the demo node with a failing graph
extraction keeps the new summary committed and latest. -/
theorem summarize_graph_failure_isolated_witness :
    summarizeNode demoBState "N" (some demoPayload) "S1" none =
      Except.ok
        (recordEvent (createSummary demoBState "N" "S1" demoPayload) "N"
            "SUMMARY_UPDATED" "S1",
          ⟨"S1", "failed",
            some "Graph extraction failed. Re-run summarize to retry."⟩) ∧
    latestSummary
        (recordEvent (createSummary demoBState "N" "S1" demoPayload) "N"
          "SUMMARY_UPDATED" "S1") "N" =
      some ⟨"S1", "N", demoPayload, true⟩ :=
  summarize_graph_failure_isolated demoBState "N" demoBNode demoPayload "S1"
    (by decide) (by decide)

/-- Every member of a bounded ancestor chain is reached by a positive
number of parent steps. -/
lemma ancChain_mem (f : String → Option String) :
    ∀ (k : Nat) (a x : String), x ∈ ancChain f k a →
      ∃ m, 0 < m ∧ iterStep f m a = some x := by
  intro k
  induction k with
  | zero => intro a x hx; simp [ancChain] at hx
  | succ k ih =>
      intro a x hx
      unfold ancChain at hx
      cases hf : f a with
      | none => rw [hf] at hx; simp at hx
      | some p =>
          rw [hf] at hx
          rcases List.mem_cons.1 hx with rfl | hx2
          · exact ⟨1, Nat.one_pos, by simp [iterStep, hf]⟩
          · obtain ⟨m, hm, hit⟩ := ih p x hx2
            exact ⟨m + 1, Nat.succ_pos _, by simp [iterStep, hf, hit]⟩

/-- Walking a parent function strictly decreases any rank function that
the one-step relation decreases. -/
lemma iterStep_rank_le (f : String → Option String) (rank : String → Nat)
    (h : ∀ a b, f a = some b → rank b < rank a) :
    ∀ (k : Nat) (a b : String), iterStep f k a = some b →
      rank b + k ≤ rank a := by
  intro k
  induction k with
  | zero =>
      intro a b h0
      unfold iterStep at h0
      cases h0
      omega
  | succ k ih =>
      intro a b hk
      unfold iterStep at hk
      obtain ⟨c, hc, hck⟩ := Option.bind_eq_some.1 hk
      have h1 := ih c b hck
      have h2 := h a c hc
      omega

/-- A parent function admitting a strictly decreasing rank is acyclic. -/
lemma acyclic_of_rank (f : String → Option String) (rank : String → Nat)
    (h : ∀ a b, f a = some b → rank b < rank a) : Acyclic f := by
  intro a k hk hcon
  have := iterStep_rank_le f rank h k a a hcon
  omega

/-- Claim C3: merge validation (modelled from the spec) admits a request
only when the source is a proper descendant of the target — a positive
number of parent steps from the source reaches the target; in an acyclic
lineage a self-merge on an existing node fails with `InvalidState`; and
the frontend's offered `potentialTargets` never contain the source node
or a deleted node. -/
theorem merge_descendant_guard (bnodes : List BNode)
    (srcId tgtId selfId : String) (fnodes : List RFNode) (mid : String) :
    (mergeValidate bnodes srcId tgtId = Except.ok () →
      ∃ k, 0 < k ∧ iterStep (bparentOf bnodes) k srcId = some tgtId) ∧
    ((∃ n, bnodes.find? (fun x => x.nodeId = selfId) = some n) →
      Acyclic (bparentOf bnodes) →
      mergeValidate bnodes selfId selfId =
        Except.error MergeError.invalidState) ∧
    (∀ n ∈ potentialTargets fnodes mid,
      n.id ≠ mid ∧ n.data.status ≠ NodeStatus.deleted) := by
  refine ⟨?_, ?_, ?_⟩
  · intro h
    rcases hsrc : bnodes.find? (fun n => n.nodeId = srcId) with _ | src
    · simp [mergeValidate, hsrc] at h
    · rcases htgt : bnodes.find? (fun n => n.nodeId = tgtId) with _ | tgt
      · simp [mergeValidate, hsrc, htgt] at h
      · simp only [mergeValidate, hsrc, htgt] at h
        split_ifs at h with h1 h2
        · exact ancChain_mem (bparentOf bnodes) bnodes.length srcId tgtId h2
  · rintro ⟨n, hfind⟩ hacyc
    simp only [mergeValidate, hfind]
    split_ifs with h1 h2
    · rfl
    · exfalso
      obtain ⟨m, hm, hit⟩ :=
        ancChain_mem (bparentOf bnodes) bnodes.length selfId selfId h2
      exact hacyc selfId m hm hit
    · rfl
  · intro n hn
    have h := (List.mem_filter.1 hn).2
    simpa using h

/-- The demo lineage's parent function in closed form. -/
lemma demoBTree_parent :
    ∀ a, bparentOf demoBTree a = if a = "C" then some "R" else none := by
  intro a
  by_cases hC : a = "C"
  · subst hC; rfl
  · by_cases hR : a = "R"
    · subst hR; rfl
    · rw [if_neg hC]
      have hR2 : ("R" = a) = False := by simp [eq_comm, hR]
      have hC2 : ("C" = a) = False := by simp [eq_comm, hC]
      simp [bparentOf, demoBTree, List.find?_cons, hR2, hC2]

/-- The demo lineage is acyclic. -/
lemma demoBTree_acyclic : Acyclic (bparentOf demoBTree) := by
  apply acyclic_of_rank (bparentOf demoBTree)
    (fun a => if a = "C" then 1 else 0)
  intro a b hab
  rw [demoBTree_parent] at hab
  by_cases hC : a = "C"
  · rw [if_pos hC] at hab
    cases hab
    simp [hC]
  · rw [if_neg hC] at hab
    cases hab

/-- Claim C3 witness: in the demo lineage the validated merge C→R is a
proper descent, the self-merge C→C fails with `InvalidState`, and the
demo store's offered targets avoid the source and deleted nodes. -/
theorem merge_descendant_guard_witness :
    (∃ k, 0 < k ∧ iterStep (bparentOf demoBTree) k "C" = some "R") ∧
    (mergeValidate demoBTree "C" "C" =
      Except.error MergeError.invalidState) ∧
    ∀ n ∈ potentialTargets demoState.nodes "node-2",
      n.id ≠ "node-2" ∧ n.data.status ≠ NodeStatus.deleted := by
  obtain ⟨h1, h2, h3⟩ :=
    merge_descendant_guard demoBTree "C" "R" "C" demoState.nodes "node-2"
  exact ⟨h1 rfl, h2 ⟨demoBTree[1], rfl⟩ demoBTree_acyclic, h3⟩

/-- Splitting an iterated parent walk. -/
lemma iterStep_add (f : String → Option String) (m : Nat) :
    ∀ (n : Nat) (a : String),
      iterStep f (m + n) a = (iterStep f m a).bind (iterStep f n) := by
  induction m with
  | zero => intro n a; simp [iterStep]
  | succ m ih =>
      intro n a
      have hm : m + 1 + n = (m + n) + 1 := by omega
      rw [hm]
      show (f a).bind (iterStep f (m + n)) = _
      cases hf : f a with
      | none => simp [iterStep, hf]
      | some c => simp [iterStep, hf, ih]

/-- A fuel-exhausted path walk yields, for every step count below the
fuel, a current id whose parent lookup still succeeds. -/
lemma pathLoop_none_chain (nodes : List RFNode) :
    ∀ (fuel : Nat) (c : String), pathLoop nodes fuel (some c) = none →
      ∀ k < fuel, ∃ e, iterStep (parentOf nodes) k c = some e ∧
        (parentOf nodes e).isSome := by
  intro fuel
  induction fuel with
  | zero => intro c h k hk; omega
  | succ fuel ih =>
      intro c h k hk
      unfold pathLoop at h
      cases hp : parentOf nodes c with
      | none => rw [hp] at h; simp [pathLoop] at h
      | some c1 =>
          rw [hp] at h
          have h1 : pathLoop nodes fuel (some c1) = none := by
            rcases hq : pathLoop nodes fuel (some c1) with _ | p
            · rfl
            · rw [hq] at h; simp at h
          cases k with
          | zero => exact ⟨c, by simp [iterStep], by simp [hp]⟩
          | succ j =>
              obtain ⟨e, he, hs⟩ := ih c1 h1 j (by omega)
              refine ⟨e, ?_, hs⟩
              show (parentOf nodes c).bind (iterStep (parentOf nodes) j) =
                some e
              rw [hp]
              simpa using he

/-- An id whose parent lookup succeeds is the id of a listed node. -/
lemma parentOf_isSome_mem (nodes : List RFNode) (c : String)
    (h : (parentOf nodes c).isSome) : c ∈ nodes.map RFNode.id := by
  unfold parentOf at h
  rcases hf : nodes.find? (fun n => n.id = c) with _ | n
  · rw [hf] at h; simp at h
  · have hpred := List.find?_some hf
    have hmem := List.mem_of_find?_eq_some hf
    simp only [decide_eq_true_eq] at hpred
    exact List.mem_map.2 ⟨n, hmem, hpred⟩

/-- Under an acyclic parent relation the path walk terminates within
fuel `nodes.length + 1`: the ids it visits while continuing are distinct
ids of listed nodes, so a longer run would repeat one and close a
cycle. -/
lemma pathLoop_terminates (nodes : List RFNode)
    (hacyc : Acyclic (parentOf nodes)) (c : String) :
    ∃ p, pathLoop nodes (nodes.length + 1) (some c) = some p := by
  rcases hq : pathLoop nodes (nodes.length + 1) (some c) with _ | p
  · exfalso
    have hch := pathLoop_none_chain nodes (nodes.length + 1) c hq
    have hkey : ∀ i j : Nat, i < j → j < nodes.length + 1 →
        iterStep (parentOf nodes) i c ≠ iterStep (parentOf nodes) j c := by
      intro i j hij hjlt heq
      obtain ⟨e, he, -⟩ := hch i (by omega)
      have hj : iterStep (parentOf nodes) j c = some e := by
        rw [← heq]; exact he
      have hsplit : iterStep (parentOf nodes) j c =
          (iterStep (parentOf nodes) i c).bind
            (iterStep (parentOf nodes) (j - i)) := by
        conv_lhs => rw [show j = i + (j - i) by omega]
        exact iterStep_add (parentOf nodes) i (j - i) c
      rw [hj, he, Option.some_bind] at hsplit
      exact hacyc e (j - i) (by omega) hsplit.symm
    set E := (List.range (nodes.length + 1)).map
      (fun k => iterStep (parentOf nodes) k c) with hE
    have hlen : E.length = nodes.length + 1 := by simp [hE]
    have hnodup : E.Nodup := by
      apply List.Nodup.map_on _ (List.nodup_range _)
      intro i hi j hj hij
      simp only [List.mem_range] at hi hj
      by_contra hne
      rcases Nat.lt_or_ge i j with hlt | hge
      · exact hkey i j hlt hj hij
      · have hlt2 : j < i := by omega
        exact hkey j i hlt2 hi hij.symm
    have hsub : ∀ x ∈ E, x ∈ (nodes.map RFNode.id).map some := by
      intro x hx
      obtain ⟨k, hk, rfl⟩ := List.mem_map.1 hx
      simp only [List.mem_range] at hk
      obtain ⟨e, he, hs⟩ := hch k hk
      rw [he]
      exact List.mem_map.2 ⟨e, parentOf_isSome_mem nodes e hs, rfl⟩
    have h1 : E.toFinset.card = nodes.length + 1 := by
      rw [List.toFinset_card_of_nodup hnodup, hlen]
    have h2 : E.toFinset ⊆ ((nodes.map RFNode.id).map some).toFinset := by
      intro x hx
      rw [List.mem_toFinset] at hx ⊢
      exact hsub x hx
    have h3 := Finset.card_le_card h2
    have h4 := List.toFinset_card_le ((nodes.map RFNode.id).map some)
    simp only [List.length_map] at h4
    omega
  · exact ⟨p, rfl⟩

/-- A successful path walk produces the maximal parent chain: non-empty,
ending at the start id, consecutive entries parent-linked (root-first),
and its head parentless. -/
lemma pathLoop_some_spec (nodes : List RFNode) :
    ∀ (fuel : Nat) (c : String) (p : List String),
      pathLoop nodes fuel (some c) = some p →
      p ≠ [] ∧ p.getLast? = some c ∧
      List.Chain' (fun a b => parentOf nodes b = some a) p ∧
      ∀ h, p.head? = some h → parentOf nodes h = none := by
  intro fuel
  induction fuel with
  | zero => intro c p h; simp [pathLoop] at h
  | succ fuel ih =>
      intro c p h
      unfold pathLoop at h
      cases hp : parentOf nodes c with
      | none =>
          rw [hp] at h
          simp only [pathLoop, Option.map_some', Option.some.injEq,
            List.nil_append] at h
          subst h
          refine ⟨by simp, by simp, by simp, ?_⟩
          intro x hx
          simp only [List.head?_cons, Option.some.injEq] at hx
          subst hx
          exact hp
      | some c1 =>
          rw [hp] at h
          obtain ⟨rest, hrest, rfl⟩ := Option.map_eq_some'.1 h
          obtain ⟨hne, hlast, hchain, hhead⟩ := ih c1 rest hrest
          refine ⟨by simp, by simp [List.getLast?_append], ?_, ?_⟩
          · rw [List.chain'_append]
            refine ⟨hchain, List.chain'_singleton _, ?_⟩
            intro x hx y hy
            simp only [List.head?_cons, Option.mem_def,
              Option.some.injEq] at hy
            subst hy
            rw [Option.mem_def, hlast] at hx
            cases hx
            exact hp
          · rcases rest with _ | ⟨a, t⟩
            · exact absurd rfl hne
            · intro x hx
              simp only [List.cons_append, List.head?_cons,
                Option.some.injEq] at hx
              subst hx
              exact hhead a rfl

/-- Claim C9: when the `parentId` relation read from the node list is
acyclic, `setSelectedNode` with a non-null id terminates (the embedded
fuel suffices) and sets `highlightedPath` to the chain obtained by
following parent links from the id — non-empty, root-first (each entry
the parent of the next, the first entry parentless) and ending at the
id — while `setSelectedNode null` empties the path. -/
theorem setSelectedNode_path (s : AppState) (id : String)
    (hacyc : Acyclic (parentOf s.nodes)) :
    (∃ t, setSelectedNode s (some id) = some t ∧
      t.selectedNodeId = some id ∧
      t.highlightedPath ≠ [] ∧
      t.highlightedPath.getLast? = some id ∧
      List.Chain' (fun a b => parentOf s.nodes b = some a)
        t.highlightedPath ∧
      ∀ h, t.highlightedPath.head? = some h → parentOf s.nodes h = none) ∧
    setSelectedNode s none =
      some { s with selectedNodeId := none, highlightedPath := [] } := by
  constructor
  · obtain ⟨p, hp⟩ := pathLoop_terminates s.nodes hacyc id
    obtain ⟨hne, hlast, hchain, hhead⟩ :=
      pathLoop_some_spec s.nodes (s.nodes.length + 1) id p hp
    refine ⟨{ s with selectedNodeId := some id, highlightedPath := p },
      ?_, rfl, hne, hlast, hchain, hhead⟩
    simp [setSelectedNode, hp]
  · rfl

/-- The demo store's parent function in closed form. -/
lemma demoState_parent :
    ∀ a, parentOf demoState.nodes a =
      if a = "node-2" then some "root" else none := by
  intro a
  by_cases h2 : a = "node-2"
  · subst h2; rfl
  · by_cases hR : a = "root"
    · subst hR; rfl
    · rw [if_neg h2]
      have hR2 : ("root" = a) = False := by simp [eq_comm, hR]
      have hN2 : ("node-2" = a) = False := by simp [eq_comm, h2]
      simp [parentOf, demoState, demoRoot, demoNode2, List.find?_cons,
        hR2, hN2]

/-- The demo store's parent relation is acyclic. -/
lemma demoState_acyclic : Acyclic (parentOf demoState.nodes) := by
  apply acyclic_of_rank (parentOf demoState.nodes)
    (fun a => if a = "node-2" then 1 else 0)
  intro a b hab
  rw [demoState_parent] at hab
  by_cases h2 : a = "node-2"
  · rw [if_pos h2] at hab
    cases hab
    simp [h2]
  · rw [if_neg h2] at hab
    cases hab

/-- Claim C9 witness: selecting the demo child terminates and yields the
root-first chain ending at the child. -/
theorem setSelectedNode_path_witness :
    (∃ t, setSelectedNode demoState (some "node-2") = some t ∧
      t.selectedNodeId = some "node-2" ∧
      t.highlightedPath ≠ [] ∧
      t.highlightedPath.getLast? = some "node-2" ∧
      List.Chain' (fun a b => parentOf demoState.nodes b = some a)
        t.highlightedPath ∧
      ∀ h, t.highlightedPath.head? = some h →
        parentOf demoState.nodes h = none) ∧
    setSelectedNode demoState none =
      some { demoState with selectedNodeId := none, highlightedPath := [] } :=
  setSelectedNode_path demoState "node-2" demoState_acyclic

end Fractal
